import Mathlib

/-!
Shallow embedding of the portfolio construction engine in
`src/AdvancedConnectionCanvas/fin.py`.

Matrices are lists of rows over `ℚ`; tensors of shape `(N,)` are `List ℚ`.
Torch operations used by the source (`clamp_`, `div_`, `cummax`, `min`,
`max`, `abs`, sums and dot products) are translated elementwise.  The
iterative descent loops (`torch.optim.LBFGS` / `Adam` driving a closure)
are external library calls; they are modelled as opaque function
parameters (`descent`, `lbfgsT`, `lbfgsC`, `descentMV`) producing the
tensor state after the loop, while every piece of surrounding logic
(projection steps, moment estimation, cost models, rebalance policy,
the backtest loop and the dynamic-programming loop) is translated
directly from the source.  Division by zero yields `0` in `ℚ` where the
source would produce IEEE `nan`/`inf`.
-/

/-- `torch.clamp(x, min=lo, max=hi)` on one entry. -/
def clampQ (lo hi x : ℚ) : ℚ := min (max x lo) hi

/-- The projection used throughout `fin.py`:
`weights.clamp_(min=bounds[0], max=bounds[1]); weights.div_(weights.sum())`. -/
def project (lo hi : ℚ) (w : List ℚ) : List ℚ :=
  let c := w.map (clampQ lo hi)
  c.map (fun x => x / c.sum)

/-- Dot product of two weight/return vectors (`torch.sum(a * b)` / `a @ b`). -/
def dotQ (a b : List ℚ) : ℚ := (List.zipWith (fun x y => x * y) a b).sum

/-- Matrix-vector product `M @ v` for a row-major matrix. -/
def matVec (M : List (List ℚ)) (v : List ℚ) : List ℚ := M.map (fun row => dotQ row v)

/-- Quadratic form `w @ M @ w`. -/
def quadForm (w : List ℚ) (M : List (List ℚ)) : ℚ := dotQ w (matVec M w)

/-- `TransactionCostModel` enum of `fin.py`. -/
inductive TransactionCostModel
  | NONE
  | PROPORTIONAL
  | FIXED_PLUS_PROPORTIONAL
  | MARKET_IMPACT
deriving DecidableEq

/-- `RebalanceFrequency` enum of `fin.py`. -/
inductive RebalanceFrequency
  | DAILY
  | WEEKLY
  | MONTHLY
  | QUARTERLY
  | ANNUALLY
  | THRESHOLD
deriving DecidableEq

/-- `trade_amounts = torch.abs(new_weights - old_weights) * portfolio_value`
(line 216 of `fin.py`). -/
def tradeAmounts (old_weights new_weights : List ℚ) (portfolio_value : ℚ) : List ℚ :=
  List.zipWith (fun n o => |n - o| * portfolio_value) new_weights old_weights

/-- `PortfolioBacktester.compute_transaction_costs` (lines 193-236).
`sqrtFn` stands for `torch.sqrt`, used only by the `MARKET_IMPACT` branch. -/
def compute_transaction_costs (sqrtFn : ℚ → ℚ) (old_weights new_weights : List ℚ)
    (portfolio_value : ℚ) (cost_model : TransactionCostModel)
    (cost_rate fixed_cost market_impact_coef : ℚ) : ℚ :=
  let ta := tradeAmounts old_weights new_weights portfolio_value
  match cost_model with
  | .NONE => 0
  | .PROPORTIONAL => ta.sum * cost_rate
  | .FIXED_PLUS_PROPORTIONAL =>
      let n_trades :=
        ((List.zipWith (fun n o => |n - o|) new_weights old_weights).filter
          (fun d => decide ((1 : ℚ)/1000000 < d))).length
      ta.sum * cost_rate + (n_trades : ℚ) * fixed_cost
  | .MARKET_IMPACT =>
      ta.sum * cost_rate + market_impact_coef * (ta.map sqrtFn).sum

/-- `torch.max(torch.abs(current_weights - target_weights))` (line 275);
for the nonempty lists of absolute values that occur this fold computes
the maximum entry. -/
def weightDrift (current target : List ℚ) : ℚ :=
  (List.zipWith (fun a b => |a - b|) current target).foldr max 0

/-- `PortfolioBacktester.should_rebalance` (lines 238-278).  Indices are
naturals; in every call of the source `current_idx ≥ last_rebalance_idx`,
and the truncated subtraction agrees with Python integer subtraction on
all the comparisons made here. -/
def should_rebalance (current_weights target_weights : List ℚ)
    (rebalance_freq : RebalanceFrequency) (current_idx last_rebalance_idx : ℕ)
    (threshold : ℚ) : Bool :=
  match rebalance_freq with
  | .DAILY => true
  | .WEEKLY => decide (5 ≤ current_idx - last_rebalance_idx)
  | .MONTHLY => decide (21 ≤ current_idx - last_rebalance_idx)
  | .QUARTERLY => decide (63 ≤ current_idx - last_rebalance_idx)
  | .ANNUALLY => decide (252 ≤ current_idx - last_rebalance_idx)
  | .THRESHOLD => decide (threshold < weightDrift current_weights target_weights)

/-- `MomentEstimate`: column means and unbiased sample covariance. -/
structure Moments where
  mean : List ℚ
  cov : List (List ℚ)
deriving DecidableEq

/-- The statistics step of `_optimize_weights` (lines 411-416) and of the
constructors of `MultiPeriodOptimizer` / `TorchPortfolioOptimizer`:
`mean = X.mean(dim=0)`, `cov = (X-mean).T @ (X-mean) / (T-1)`.
No length check precedes it in the source; for `T = 1` the division is
by zero. -/
def estimateMoments (X : List (List ℚ)) : Moments :=
  let T := X.length
  let N := (X.headD []).length
  let mean := (List.range N).map (fun j => (X.map (fun row => row.getD j 0)).sum / (T : ℚ))
  let centered := X.map (fun row => List.zipWith (fun a b => a - b) row mean)
  let cov := (List.range N).map (fun i => (List.range N).map (fun j =>
    (centered.map (fun r => r.getD i 0 * r.getD j 0)).sum / ((T : ℚ) - 1)))
  ⟨mean, cov⟩

/-- The error taxonomy named by the specification.  Neither identifier
occurs anywhere in `fin.py`; the type exists so that the (absent) error
behaviour of the optimizers can be stated. -/
inductive FinError
  | insufficientData
  | infeasibleConstraint
deriving DecidableEq

/-- Pre-projection weights of `PortfolioBacktester._optimize_weights`
(lines 396-478): moments are estimated, weights are initialized to
`1/N`, then one of the three descent loops runs (modelled by the opaque
`descent`, which receives the method name, the moments, the bounds and
the initial point); an unrecognized method leaves the uniform weights
unchanged (the `else: pass` branch, line 475-477). -/
def optimizeWeightsRaw (descent : String → Moments → ℚ × ℚ → List ℚ → List ℚ)
    (window : List (List ℚ)) (method : String) (lo hi : ℚ) : List ℚ :=
  let m := estimateMoments window
  let N := (window.headD []).length
  let init : List ℚ := List.replicate N (1 / (N : ℚ))
  if method == "minimum_variance" || method == "maximum_sharpe" || method == "risk_parity"
  then descent method m (lo, hi) init
  else init

/-- `PortfolioBacktester._optimize_weights`: the returned tensor is the
final projection (lines 479-483) of the descent result. -/
def optimizeWeights (descent : String → Moments → ℚ × ℚ → List ℚ → List ℚ)
    (window : List (List ℚ)) (method : String) (lo hi : ℚ) : List ℚ :=
  project lo hi (optimizeWeightsRaw descent window method lo hi)

/-- `_optimize_weights` with its error behaviour made explicit: the
source contains no `raise` statement and no reference to
`InsufficientDataError` or `InfeasibleConstraintError`, so every call
returns a weight vector. -/
def optimizeWeightsE (descent : String → Moments → ℚ × ℚ → List ℚ → List ℚ)
    (window : List (List ℚ)) (method : String) (lo hi : ℚ) : Except FinError (List ℚ) :=
  Except.ok (optimizeWeights descent window method lo hi)

/-- Pre-projection weights of
`TorchPortfolioOptimizer.optimize_minimum_variance_torch` (lines
1293-1333): uniform initialization followed by the LBFGS loop (opaque
`descentMV`, receiving the sample covariance computed in `__init__`,
the bounds and the initial point). -/
def optimizeMinimumVarianceTorchRaw (descentMV : List (List ℚ) → ℚ × ℚ → List ℚ → List ℚ)
    (returns : List (List ℚ)) (lo hi : ℚ) : List ℚ :=
  let N := (returns.headD []).length
  let m := estimateMoments returns
  descentMV m.cov (lo, hi) (List.replicate N (1 / (N : ℚ)))

/-- `TorchPortfolioOptimizer.optimize_minimum_variance_torch`: final
projection (lines 1334-1338) of the descent result; the source performs
no feasibility validation of the bounds and contains no `raise`, so
every call returns a weight vector. -/
def optimizeMinimumVarianceTorch (descentMV : List (List ℚ) → ℚ × ℚ → List ℚ → List ℚ)
    (returns : List (List ℚ)) (lo hi : ℚ) : Except FinError (List ℚ) :=
  Except.ok (project lo hi (optimizeMinimumVarianceTorchRaw descentMV returns lo hi))

/-- State of the walk-forward loop of `run_backtest` (lines 307-322),
plus the append-only record arrays. -/
structure BTState where
  values : List ℚ
  rets : List ℚ
  tcosts : List ℚ
  turn : List ℚ
  whist : List (List ℚ)
  rebalances : List ℕ
  w : List ℚ
  value : ℚ
  lastReb : ℕ
deriving DecidableEq

/-- One iteration of the `for t in range(min_history, self.T)` loop of
`run_backtest` (lines 325-370).  Note that the source calls
`should_rebalance(current_weights, current_weights, ...)` (line 331):
the drifted weights are passed as both the current and the target
argument, and the optimizer runs only inside the triggered branch.
The in-loop cost call (lines 340-343) passes neither `fixed_cost` nor
`market_impact_coef`, so both stay at their default `0.0`. -/
def btStep (descent : String → Moments → ℚ × ℚ → List ℚ → List ℚ) (method : String)
    (lo hi : ℚ) (returns : List (List ℚ)) (lookback : ℕ)
    (rebalance_freq : RebalanceFrequency) (threshold : ℚ)
    (cost_model : TransactionCostModel) (cost_rate : ℚ) (sqrtFn : ℚ → ℚ)
    (s : BTState) (t : ℕ) : BTState :=
  let window := (returns.take t).drop (t - lookback)
  let s1 :=
    if should_rebalance s.w s.w rebalance_freq t s.lastReb threshold then
      let target := optimizeWeights descent window method lo hi
      let tc := compute_transaction_costs sqrtFn s.w target s.value cost_model cost_rate 0 0
      let tov := (List.zipWith (fun a b => |a - b|) target s.w).sum
      { s with value := s.value - tc, tcosts := s.tcosts.set t tc,
               turn := s.turn.set t tov, w := target, lastReb := t,
               rebalances := s.rebalances ++ [t] }
    else s
  let r := dotQ s1.w (returns.getD t [])
  let newValue := s1.value * (1 + r)
  let asset_values := List.zipWith (fun wi ri => wi * newValue * (1 + ri)) s1.w (returns.getD t [])
  let w2 := asset_values.map (fun x => x / asset_values.sum)
  { s1 with rets := s1.rets.set t r, value := newValue,
            values := s1.values.set t newValue, w := w2, whist := s1.whist.set t w2 }

/-- Fuel-indexed driver for `for t in range(t0, t0 + k)`. -/
def btRunAux (step : BTState → ℕ → BTState) : ℕ → ℕ → BTState → BTState
  | 0, _, s => s
  | k + 1, t, s => btRunAux step k (t + 1) (step s t)

/-- `PortfolioBacktester.run_backtest` (lines 280-394): tracking arrays
initialized to zeros with `portfolio_values[0] = initial_capital` and
`weights_history[0]` the equal-weight vector, state initialized with
equal weights, full capital and `last_rebalance_idx = min_history`, then
the walk-forward loop over `t = min_history, ..., T-1`. -/
def runBacktest (descent : String → Moments → ℚ × ℚ → List ℚ → List ℚ) (method : String)
    (returns : List (List ℚ)) (lookback : ℕ) (rebalance_freq : RebalanceFrequency)
    (threshold : ℚ) (cost_model : TransactionCostModel) (cost_rate : ℚ)
    (min_history : ℕ) (lo hi : ℚ) (initial_capital : ℚ) (sqrtFn : ℚ → ℚ) : BTState :=
  let T := returns.length
  let N := (returns.headD []).length
  let w0 : List ℚ := List.replicate N (1 / (N : ℚ))
  let s0 : BTState :=
    { values := (List.replicate T (0 : ℚ)).set 0 initial_capital,
      rets := List.replicate T 0,
      tcosts := List.replicate T 0,
      turn := List.replicate T 0,
      whist := (List.replicate T (List.replicate N (0 : ℚ))).set 0 w0,
      rebalances := [],
      w := w0, value := initial_capital, lastReb := min_history }
  btRunAux (btStep descent method lo hi returns lookback rebalance_freq threshold
    cost_model cost_rate sqrtFn) (T - min_history) min_history s0

/-- Tail of `torch.cummax` given the running maximum so far. -/
def runningMaxAux (m : ℚ) : List ℚ → List ℚ
  | [] => []
  | x :: xs => max m x :: runningMaxAux (max m x) xs

/-- `torch.cummax(portfolio_values, dim=0)[0]` (line 508). -/
def runningMax : List ℚ → List ℚ
  | [] => []
  | x :: xs => x :: runningMaxAux x xs

/-- `torch.min` of a nonempty series (the empty case defaults to 0). -/
def listMin : List ℚ → ℚ
  | [] => 0
  | x :: xs => xs.foldl min x

/-- `drawdown = (portfolio_values - cummax) / cummax` (line 509). -/
def drawdowns (V : List ℚ) : List ℚ :=
  List.zipWith (fun v m => (v - m) / m) V (runningMax V)

/-- `max_drawdown = torch.min(drawdown).item()` (lines 507-510). -/
def maxDrawdown (V : List ℚ) : ℚ := listMin (drawdowns V)

/-- Maximum of a nonempty series (the empty case defaults to 0). -/
def listMax : List ℚ → ℚ
  | [] => 0
  | x :: xs => xs.foldl max x

/-- Modelled from the spec: `running_max(V)_t` as the literal maximum of
`V_0..V_t`, for comparison with the source's `torch.cummax`. -/
def specRunningMax (V : List ℚ) : List ℚ :=
  (List.range V.length).map (fun t => listMax (V.take (t + 1)))

/-- Modelled from the spec: `min_t ((V_t - running_max(V)_t) / running_max(V)_t)`. -/
def specMaxDrawdown (V : List ℚ) : ℚ :=
  listMin (List.zipWith (fun v m => (v - m) / m) V (specRunningMax V))

/-- State of the backward-induction loop of
`MultiPeriodOptimizer.optimize_dynamic_program` (lines 598-619).
`arr` is the `optimal_weights` buffer (initialized to zeros); `refs`
instruments the loop, recording at index `t` the `current_weights`
argument passed to the period-`t` solve call. -/
structure DPState where
  arr : List (List ℚ)
  refs : List (List ℚ)
deriving DecidableEq

/-- `MultiPeriodOptimizer._solve_single_period` (lines 636-670): LBFGS
loop (opaque `lbfgsT`) started from `current_weights`, followed by the
final projection. -/
def solveSinglePeriod (lbfgsT : List ℚ → List ℚ) (lo hi : ℚ) (current_weights : List ℚ) :
    List ℚ :=
  project lo hi (lbfgsT current_weights)

/-- `MultiPeriodOptimizer._solve_with_continuation` (lines 672-714):
LBFGS loop (opaque `lbfgsC`, receiving both arguments of the Python
method), followed by the final projection. -/
def solveWithContinuation (lbfgsC : List ℚ → List ℚ → List ℚ) (lo hi : ℚ)
    (current_weights next_period_weights : List ℚ) : List ℚ :=
  project lo hi (lbfgsC current_weights next_period_weights)

/-- Body of the `for t in range(self.n_periods - 1, -1, -1)` loop
(lines 607-619): the terminal period solves against `initial_weights`;
every other period solves with reference
`initial_weights if t == 0 else optimal_weights[t - 1]` and
continuation argument `optimal_weights[t + 1]`. -/
def dpStep (lbfgsT : List ℚ → List ℚ) (lbfgsC : List ℚ → List ℚ → List ℚ)
    (lo hi : ℚ) (H : ℕ) (initial_weights : List ℚ) (s : DPState) (t : ℕ) : DPState :=
  if t = H - 1 then
    { arr := s.arr.set t (solveSinglePeriod lbfgsT lo hi initial_weights),
      refs := s.refs.set t initial_weights }
  else
    let ref := if t = 0 then initial_weights else s.arr.getD (t - 1) []
    { arr := s.arr.set t (solveWithContinuation lbfgsC lo hi ref (s.arr.getD (t + 1) [])),
      refs := s.refs.set t ref }

/-- Driver for `for t in range(k - 1, -1, -1)`: indices are visited in
decreasing order `k-1, k-2, ..., 0`. -/
def dpRun (step : DPState → ℕ → DPState) (s : DPState) : ℕ → DPState
  | 0 => s
  | k + 1 => dpRun step (step s k) k

/-- `MultiPeriodOptimizer.optimize_dynamic_program` (lines 580-619), up
to the weight sequence: `optimal_weights = torch.zeros(H, N)` followed
by the backward loop. -/
def optimizeDynamicProgram (lbfgsT : List ℚ → List ℚ) (lbfgsC : List ℚ → List ℚ → List ℚ)
    (lo hi : ℚ) (H N : ℕ) (initial_weights : List ℚ) : DPState :=
  dpRun (dpStep lbfgsT lbfgsC lo hi H initial_weights)
    ⟨List.replicate H (List.replicate N 0), List.replicate H (List.replicate N 0)⟩ H

/-- The objective computed by the closure of `_solve_with_continuation`
(lines 687-701): turnover against `current_weights`, proportional cost,
mean-variance utility, continuation `0.95 * immediate_utility`, summed
as `immediate_utility - tc_cost + continuation` (the closure minimizes
its negation). -/
def continuationTotalValue (mean_returns : List ℚ) (cov : List (List ℚ))
    (risk_aversion transaction_cost_rate : ℚ) (current_weights w : List ℚ) : ℚ :=
  let turnover := (List.zipWith (fun a b => |a - b|) w current_weights).sum
  let tc_cost := turnover * transaction_cost_rate
  let expected_return := dotQ w mean_returns
  let variance := quadForm w cov
  let immediate_utility := expected_return - 1/2 * risk_aversion * variance
  let continuation := 95/100 * immediate_utility
  immediate_utility - tc_cost + continuation

/-- Modelled from the spec: `immediate_utility(w) = wᵀμ - 0.5·λ·wᵀΣw`. -/
def specImmediateUtility (mu : List ℚ) (S : List (List ℚ)) (lam : ℚ) (w : List ℚ) : ℚ :=
  dotQ w mu - 1/2 * lam * quadForm w S

/-- Modelled from the spec:
`value(t) = immediate_utility(w) - c·Σ|w_i - ref_i| + 0.95·immediate_utility(w)`. -/
def specPeriodValue (mu : List ℚ) (S : List (List ℚ)) (lam c : ℚ) (ref w : List ℚ) : ℚ :=
  specImmediateUtility mu S lam w - c * (List.zipWith (fun a b => |a - b|) w ref).sum
    + 95/100 * specImmediateUtility mu S lam w

/-! ## General list lemmas -/

theorem getD_set_ne {α : Type} : ∀ (l : List α) (i j : ℕ) (a d : α), i ≠ j →
    (l.set i a).getD j d = l.getD j d
  | [], _, _, _, _, _ => rfl
  | _ :: _, 0, 0, _, _, h => absurd rfl h
  | _ :: _, 0, _ + 1, _, _, _ => rfl
  | _ :: _, _ + 1, 0, _, _, _ => rfl
  | _ :: xs, i + 1, j + 1, a, d, h =>
      getD_set_ne xs i j a d (fun hh => h (by rw [hh]))

theorem getD_set_self {α : Type} : ∀ (l : List α) (i : ℕ) (a d : α), i < l.length →
    (l.set i a).getD i d = a
  | [], i, _, _, h => absurd h (by simp)
  | _ :: _, 0, _, _, _ => rfl
  | _ :: xs, i + 1, a, d, h =>
      getD_set_self xs i a d (by simpa using h)

theorem getD_replicate {α : Type} : ∀ (n i : ℕ) (a d : α), i < n →
    (List.replicate n a).getD i d = a
  | 0, i, _, _, h => absurd h (by simp)
  | _ + 1, 0, _, _, _ => rfl
  | n + 1, i + 1, a, d, h =>
      getD_replicate n i a d (by simpa using h)

theorem foldl_min_le_init : ∀ (l : List ℚ) (a : ℚ), l.foldl min a ≤ a
  | [], a => le_refl a
  | x :: xs, a => le_trans (foldl_min_le_init xs (min a x)) (min_le_left a x)

theorem le_foldl_min : ∀ (l : List ℚ) (a b : ℚ), b ≤ a → (∀ x ∈ l, b ≤ x) →
    b ≤ l.foldl min a
  | [], _, _, ha, _ => ha
  | x :: xs, a, b, ha, hl =>
      le_foldl_min xs (min a x) b (le_min ha (hl x (by simp)))
        (fun y hy => hl y (by simp [hy]))

theorem zipWith_mul_right_sum (g : ℚ → ℚ → ℚ) (c : ℚ) :
    ∀ (l l' : List ℚ),
      (List.zipWith (fun a b => g a b * c) l l').sum = (List.zipWith g l l').sum * c
  | [], _ => by simp
  | _ :: _, [] => by simp
  | a :: l, b :: l' => by
      simp only [List.zipWith_cons_cons, List.sum_cons, zipWith_mul_right_sum g c l l']
      ring

theorem zipWith_self_abs_mul_sum (c : ℚ) : ∀ (l : List ℚ),
    (List.zipWith (fun n o => |n - o| * c) l l).sum = 0
  | [] => rfl
  | a :: l => by
      simp only [List.zipWith_cons_cons, List.sum_cons, zipWith_self_abs_mul_sum c l]
      simp

theorem list_sum_map_div (S : ℚ) : ∀ (l : List ℚ),
    (l.map (fun x => x / S)).sum = l.sum / S
  | [] => by simp
  | a :: l => by
      simp only [List.map_cons, List.sum_cons, list_sum_map_div S l]
      rw [add_div]

/-! ## C6: proportional transaction costs -/

/-- C6: the `PROPORTIONAL` branch of `compute_transaction_costs` charges
`rate · Σ|new_i - old_i| · V`; rebalancing to the identical weight
vector costs 0; and for old = [0.5, 0.5], new = [0.7, 0.3], V = 1000,
rate = 0.01 the cost is exactly 4. -/
theorem proportional_cost_formula (sqrtFn : ℚ → ℚ) (old_weights new_weights w : List ℚ)
    (V rate fc ic : ℚ) :
    compute_transaction_costs sqrtFn old_weights new_weights V .PROPORTIONAL rate fc ic
        = rate * (List.zipWith (fun n o => |n - o|) new_weights old_weights).sum * V
      ∧ compute_transaction_costs sqrtFn w w V .PROPORTIONAL rate fc ic = 0
      ∧ compute_transaction_costs sqrtFn [1/2, 1/2] [7/10, 3/10] 1000 .PROPORTIONAL
          (1/100) 0 0 = 4 := by
  refine ⟨?_, ?_, by norm_num [compute_transaction_costs, tradeAmounts, abs, sup_eq_max, max_def]⟩
  · show (tradeAmounts old_weights new_weights V).sum * rate = _
    unfold tradeAmounts
    rw [zipWith_mul_right_sum (fun n o => |n - o|) V new_weights old_weights]
    ring
  · show (tradeAmounts w w V).sum * rate = 0
    unfold tradeAmounts
    rw [zipWith_self_abs_mul_sum V w]
    ring

/-! ## C8: continuation-value objective -/

/-- C8: the objective of `_solve_with_continuation`'s closure equals
`immediate_utility(w) - c·Σ|w_i - ref_i| + 0.95·immediate_utility(w)`
with `immediate_utility(w) = wᵀμ - 0.5·λ·wᵀΣw`. -/
theorem continuation_objective_formula (mu : List ℚ) (S : List (List ℚ))
    (lam c : ℚ) (ref w : List ℚ) :
    continuationTotalValue mu S lam c ref w = specPeriodValue mu S lam c ref w := by
  simp only [continuationTotalValue, specPeriodValue, specImmediateUtility]
  ring

/-! ## C7: maximum drawdown -/

theorem runningMaxAux_eq_spec : ∀ (xs : List ℚ) (m : ℚ),
    runningMaxAux m xs = (List.range xs.length).map (fun t => (xs.take (t + 1)).foldl max m)
  | [], _ => rfl
  | y :: ys, m => by
      simp only [runningMaxAux, List.length_cons, List.range_succ_eq_map, List.map_cons,
        List.map_map]
      congr 1
      rw [runningMaxAux_eq_spec ys (max m y)]
      rfl

theorem runningMax_eq_spec : ∀ (V : List ℚ), runningMax V = specRunningMax V
  | [] => rfl
  | x :: xs => by
      simp only [runningMax, specRunningMax, List.length_cons, List.range_succ_eq_map,
        List.map_cons, List.map_map]
      congr 1
      rw [runningMaxAux_eq_spec xs x]
      rfl

/-- C7: the `max_drawdown` metric of `_compute_performance_metrics`
equals the spec formula `min_t ((V_t - running_max(V)_t)/running_max(V)_t)`
and is non-positive on every positive value series. -/
theorem max_drawdown_matches_spec (V : List ℚ) (h1 : V ≠ [])
    (h2 : ∀ x ∈ V, 0 < x) :
    maxDrawdown V = specMaxDrawdown V ∧ maxDrawdown V ≤ 0 := by
  constructor
  · unfold maxDrawdown specMaxDrawdown drawdowns
    rw [runningMax_eq_spec]
  · match V, h1 with
    | v :: vs, _ =>
      have hdd : drawdowns (v :: vs)
          = 0 :: List.zipWith (fun v m => (v - m) / m) vs (runningMaxAux v vs) := by
        unfold drawdowns runningMax
        simp only [List.zipWith_cons_cons, sub_self, zero_div]
      unfold maxDrawdown
      rw [hdd]
      exact foldl_min_le_init _ 0

/-- C7 witness: on the value series [100, 120, 90, 110] the metric
matches the spec formula, is non-positive, and equals -0.25. -/
theorem max_drawdown_matches_spec_witness :
    (maxDrawdown [100, 120, 90, 110] = specMaxDrawdown [100, 120, 90, 110]
      ∧ maxDrawdown [100, 120, 90, 110] ≤ 0)
    ∧ maxDrawdown [100, 120, 90, 110] = -(1/4) :=
  ⟨max_drawdown_matches_spec [100, 120, 90, 110] (by simp)
    (by intro x hx; fin_cases hx <;> norm_num),
   by norm_num [maxDrawdown, drawdowns, runningMax, runningMaxAux, listMin]⟩

/-! ## C1: the THRESHOLD rebalance policy inside the backtest -/

theorem weightDrift_self : ∀ (w : List ℚ), weightDrift w w = 0
  | [] => rfl
  | a :: l => by
      have ih := weightDrift_self l
      unfold weightDrift at ih ⊢
      simp only [List.zipWith_cons_cons, List.foldr_cons, sub_self, abs_zero, ih]
      simp

theorem should_rebalance_self_threshold (w : List ℚ) (t last : ℕ) (threshold : ℚ)
    (hθ : 0 ≤ threshold) :
    should_rebalance w w .THRESHOLD t last threshold = false := by
  unfold should_rebalance
  rw [weightDrift_self w]
  simp only [decide_eq_false_iff_not]
  exact not_lt.mpr hθ

theorem btStep_threshold_rebalances
    (descent : String → Moments → ℚ × ℚ → List ℚ → List ℚ) (method : String)
    (lo hi : ℚ) (returns : List (List ℚ)) (lookback : ℕ) (threshold : ℚ)
    (cost_model : TransactionCostModel) (cost_rate : ℚ) (sqrtFn : ℚ → ℚ)
    (hθ : 0 ≤ threshold) (s : BTState) (t : ℕ) :
    (btStep descent method lo hi returns lookback .THRESHOLD threshold cost_model cost_rate
      sqrtFn s t).rebalances = s.rebalances := by
  unfold btStep
  rw [should_rebalance_self_threshold s.w t s.lastReb threshold hθ]
  simp

theorem btRunAux_rebalances (step : BTState → ℕ → BTState)
    (hstep : ∀ s t, (step s t).rebalances = s.rebalances) :
    ∀ (k t : ℕ) (s : BTState), (btRunAux step k t s).rebalances = s.rebalances
  | 0, _, _ => rfl
  | k + 1, t, s => by
      unfold btRunAux
      rw [btRunAux_rebalances step hstep k (t + 1) (step s t), hstep s t]

/-- C1: under `THRESHOLD` mode `run_backtest` never rebalances, for any
inputs and any nonnegative threshold.  The loop calls
`should_rebalance(current_weights, current_weights, ...)` (line 331), so
the measured drift is `max|current - current| = 0` and the trigger
`drift > threshold` is always false; the optimizer candidate the claim
refers to is only ever computed after a trigger, hence never. -/
theorem threshold_backtest_never_rebalances
    (descent : String → Moments → ℚ × ℚ → List ℚ → List ℚ) (method : String)
    (returns : List (List ℚ)) (lookback : ℕ) (threshold : ℚ)
    (cost_model : TransactionCostModel) (cost_rate : ℚ) (min_history : ℕ)
    (lo hi initial_capital : ℚ) (sqrtFn : ℚ → ℚ) (hθ : 0 ≤ threshold) :
    (runBacktest descent method returns lookback .THRESHOLD threshold cost_model cost_rate
      min_history lo hi initial_capital sqrtFn).rebalances = [] := by
  simp only [runBacktest]
  rw [btRunAux_rebalances _ (btStep_threshold_rebalances descent method lo hi returns lookback
    threshold cost_model cost_rate sqrtFn hθ)]

/-- C1 witness: a concrete THRESHOLD backtest (3 periods, 2 assets,
threshold 0.05) in which the weights drift to [13/23, 10/23], i.e.
0.065 > 0.05 away from the equal-weight candidate the optimizer would
return, yet no rebalance is ever recorded. -/
theorem threshold_backtest_never_rebalances_witness :
    ((0:ℚ) ≤ 1/20)
    ∧ (runBacktest (fun _ _ _ w => w) "mm" [[0, 0], [3/10, 0], [0, 0]] 2 .THRESHOLD (1/20)
        .PROPORTIONAL (1/1000) 1 0 1 1000 id).rebalances = []
    ∧ weightDrift ((runBacktest (fun _ _ _ w => w) "mm" [[0, 0], [3/10, 0]] 2 .THRESHOLD (1/20)
        .PROPORTIONAL (1/1000) 1 0 1 1000 id).w)
        (optimizeWeights (fun _ _ _ w => w) [[0, 0], [3/10, 0]] "mm" 0 1) > 1/20 := by
  refine ⟨by norm_num, threshold_backtest_never_rebalances (fun _ _ _ w => w) "mm"
    [[0, 0], [3/10, 0], [0, 0]] 2 (1/20) .PROPORTIONAL (1/1000) 1 0 1 1000 id (by norm_num), ?_⟩
  norm_num [runBacktest, btRunAux, btStep, should_rebalance, weightDrift, dotQ, List.replicate,
    optimizeWeights, optimizeWeightsRaw, project, clampQ, estimateMoments, abs, sup_eq_max,
    max_def, min_def]

/-! ## C10: cost models inside the backtest collapse to proportional -/

theorem cost_fpp_eq_prop (sqrtFn : ℚ → ℚ) (o n : List ℚ) (V r : ℚ) :
    compute_transaction_costs sqrtFn o n V .FIXED_PLUS_PROPORTIONAL r 0 0
      = compute_transaction_costs sqrtFn o n V .PROPORTIONAL r 0 0 := by
  simp [compute_transaction_costs]

theorem cost_mi_eq_prop (sqrtFn : ℚ → ℚ) (o n : List ℚ) (V r : ℚ) :
    compute_transaction_costs sqrtFn o n V .MARKET_IMPACT r 0 0
      = compute_transaction_costs sqrtFn o n V .PROPORTIONAL r 0 0 := by
  simp [compute_transaction_costs]

theorem btStep_fpp_eq_prop
    (descent : String → Moments → ℚ × ℚ → List ℚ → List ℚ) (method : String)
    (lo hi : ℚ) (returns : List (List ℚ)) (lookback : ℕ)
    (rebalance_freq : RebalanceFrequency) (threshold cost_rate : ℚ) (sqrtFn : ℚ → ℚ) :
    btStep descent method lo hi returns lookback rebalance_freq threshold
        .FIXED_PLUS_PROPORTIONAL cost_rate sqrtFn
      = btStep descent method lo hi returns lookback rebalance_freq threshold
        .PROPORTIONAL cost_rate sqrtFn := by
  funext s t
  simp only [btStep, cost_fpp_eq_prop]

theorem btStep_mi_eq_prop
    (descent : String → Moments → ℚ × ℚ → List ℚ → List ℚ) (method : String)
    (lo hi : ℚ) (returns : List (List ℚ)) (lookback : ℕ)
    (rebalance_freq : RebalanceFrequency) (threshold cost_rate : ℚ) (sqrtFn : ℚ → ℚ) :
    btStep descent method lo hi returns lookback rebalance_freq threshold
        .MARKET_IMPACT cost_rate sqrtFn
      = btStep descent method lo hi returns lookback rebalance_freq threshold
        .PROPORTIONAL cost_rate sqrtFn := by
  funext s t
  simp only [btStep, cost_mi_eq_prop]

/-- C10: a backtest run under `FIXED_PLUS_PROPORTIONAL` or
`MARKET_IMPACT` produces exactly the same result (values, costs,
weights, everything) as under `PROPORTIONAL` with the same rate: the
in-loop cost call omits `fixed_cost` and `market_impact_coef`, leaving
both at their default 0.0. -/
theorem backtest_cost_models_collapse_to_proportional
    (descent : String → Moments → ℚ × ℚ → List ℚ → List ℚ) (method : String)
    (returns : List (List ℚ)) (lookback : ℕ) (rebalance_freq : RebalanceFrequency)
    (threshold cost_rate : ℚ) (min_history : ℕ) (lo hi initial_capital : ℚ)
    (sqrtFn : ℚ → ℚ) :
    runBacktest descent method returns lookback rebalance_freq threshold
        .FIXED_PLUS_PROPORTIONAL cost_rate min_history lo hi initial_capital sqrtFn
      = runBacktest descent method returns lookback rebalance_freq threshold
        .PROPORTIONAL cost_rate min_history lo hi initial_capital sqrtFn
    ∧ runBacktest descent method returns lookback rebalance_freq threshold
        .MARKET_IMPACT cost_rate min_history lo hi initial_capital sqrtFn
      = runBacktest descent method returns lookback rebalance_freq threshold
        .PROPORTIONAL cost_rate min_history lo hi initial_capital sqrtFn := by
  constructor
  · simp only [runBacktest]
    rw [btStep_fpp_eq_prop]
  · simp only [runBacktest]
    rw [btStep_mi_eq_prop]

/-! ## C3: the weight-vector invariant after the final projection -/

theorem project_sum_eq_one (lo hi : ℚ) (raw : List ℚ)
    (h : (raw.map (clampQ lo hi)).sum ≠ 0) :
    (project lo hi raw).sum = 1 := by
  unfold project
  rw [list_sum_map_div ((raw.map (clampQ lo hi)).sum) (raw.map (clampQ lo hi))]
  exact div_self h

/-- C3 (amended): every weight vector returned by `_optimize_weights` or
`optimize_minimum_variance_torch` satisfies `|sum(w) - 1| < 1e-6`
(indeed the sum is exactly 1) provided the clamped pre-normalization
vector has nonzero sum; the box part of the claimed invariant does not
hold (see the counterexample). -/
theorem optimizer_output_sums_to_one
    (descent : String → Moments → ℚ × ℚ → List ℚ → List ℚ)
    (window : List (List ℚ)) (method : String)
    (descentMV : List (List ℚ) → ℚ × ℚ → List ℚ → List ℚ)
    (returns : List (List ℚ)) (lo hi : ℚ)
    (h1 : ((optimizeWeightsRaw descent window method lo hi).map (clampQ lo hi)).sum ≠ 0)
    (h2 : ((optimizeMinimumVarianceTorchRaw descentMV returns lo hi).map (clampQ lo hi)).sum ≠ 0) :
    |(optimizeWeights descent window method lo hi).sum - 1| < 1/1000000
    ∧ ∀ w, optimizeMinimumVarianceTorch descentMV returns lo hi = Except.ok w →
        |w.sum - 1| < 1/1000000 := by
  constructor
  · unfold optimizeWeights
    rw [project_sum_eq_one lo hi _ h1]
    norm_num
  · intro w hw
    have hw2 : project lo hi (optimizeMinimumVarianceTorchRaw descentMV returns lo hi) = w :=
      Except.ok.inj hw
    rw [← hw2, project_sum_eq_one lo hi _ h2]
    norm_num

/-- C3 counterexample: with the feasible bounds `(lo, hi) = (0, 0.6)`
for `N = 2` (so `N·lo ≤ 1 ≤ N·hi`), a descent state of `[0.6, 0.2]`
is clamped to itself and then renormalized to `[3/4, 1/4]`, whose first
component exceeds `hi + 1e-9`: the final projection enforces the sum
constraint but not the box constraint. -/
theorem optimizer_output_can_violate_bounds :
    ((2:ℚ) * 0 ≤ 1 ∧ (1:ℚ) ≤ 2 * (6/10))
    ∧ (optimizeWeights (fun _ _ _ _ => [6/10, 2/10]) [[0, 0], [0, 0]] "minimum_variance"
        0 (6/10)).getD 0 0 > 6/10 + 1/1000000000 := by
  constructor
  · norm_num
  · norm_num [optimizeWeights, optimizeWeightsRaw, project, clampQ, estimateMoments,
      List.replicate, List.getD, max_def, min_def]

/-- C3 witness: a concrete optimizer call with nonzero clamped sum whose
output sums to 1 within tolerance. -/
theorem optimizer_output_sums_to_one_witness :
    (((optimizeWeightsRaw (fun _ _ _ w => w) [[0, 0], [0, 0]] "mm" 0 1).map
        (clampQ 0 1)).sum ≠ 0)
    ∧ (((optimizeMinimumVarianceTorchRaw (fun _ _ w => w) [[0, 0], [0, 0]] 0 1).map
        (clampQ 0 1)).sum ≠ 0)
    ∧ |(optimizeWeights (fun _ _ _ w => w) [[0, 0], [0, 0]] "mm" 0 1).sum - 1|
        < 1/1000000 := by
  have p1 : ((optimizeWeightsRaw (fun _ _ _ w => w) [[0, 0], [0, 0]] "mm" 0 1).map
      (clampQ 0 1)).sum ≠ 0 := by
    norm_num [optimizeWeightsRaw, clampQ, estimateMoments, List.replicate, max_def, min_def]
  have p2 : ((optimizeMinimumVarianceTorchRaw (fun _ _ w => w) [[0, 0], [0, 0]] 0 1).map
      (clampQ 0 1)).sum ≠ 0 := by
    norm_num [optimizeMinimumVarianceTorchRaw, clampQ, estimateMoments, List.replicate,
      max_def, min_def]
  exact ⟨p1, p2, (optimizer_output_sums_to_one (fun _ _ _ w => w) [[0, 0], [0, 0]] "mm"
    (fun _ _ w => w) [[0, 0], [0, 0]] 0 1 p1 p2).1⟩

/-! ## C2: reference weights in the backward dynamic program -/

theorem dpStep_refs_getD_ne (lbfgsT : List ℚ → List ℚ) (lbfgsC : List ℚ → List ℚ → List ℚ)
    (lo hi : ℚ) (H : ℕ) (initW : List ℚ) (s : DPState) (u j : ℕ) (d : List ℚ)
    (h : u ≠ j) :
    (dpStep lbfgsT lbfgsC lo hi H initW s u).refs.getD j d = s.refs.getD j d := by
  unfold dpStep
  split
  · exact getD_set_ne _ _ _ _ _ h
  · exact getD_set_ne _ _ _ _ _ h

theorem dpStep_arr_getD_ne (lbfgsT : List ℚ → List ℚ) (lbfgsC : List ℚ → List ℚ → List ℚ)
    (lo hi : ℚ) (H : ℕ) (initW : List ℚ) (s : DPState) (u j : ℕ) (d : List ℚ)
    (h : u ≠ j) :
    (dpStep lbfgsT lbfgsC lo hi H initW s u).arr.getD j d = s.arr.getD j d := by
  unfold dpStep
  split
  · exact getD_set_ne _ _ _ _ _ h
  · exact getD_set_ne _ _ _ _ _ h

theorem dpStep_refs_length (lbfgsT : List ℚ → List ℚ) (lbfgsC : List ℚ → List ℚ → List ℚ)
    (lo hi : ℚ) (H : ℕ) (initW : List ℚ) (s : DPState) (u : ℕ) :
    (dpStep lbfgsT lbfgsC lo hi H initW s u).refs.length = s.refs.length := by
  unfold dpStep
  split
  · exact List.length_set s.refs u _
  · exact List.length_set s.refs u _

theorem dpRun_refs_getD_ge (step : DPState → ℕ → DPState)
    (hne : ∀ s u j d, u ≠ j → (step s u).refs.getD j d = s.refs.getD j d) :
    ∀ (k : ℕ) (s : DPState) (j : ℕ) (d : List ℚ), k ≤ j →
      (dpRun step s k).refs.getD j d = s.refs.getD j d
  | 0, _, _, _, _ => rfl
  | k + 1, s, j, d, h => by
      unfold dpRun
      rw [dpRun_refs_getD_ge step hne k (step s k) j d (le_of_lt (Nat.lt_of_succ_le h))]
      exact hne s k j d (Nat.ne_of_lt (Nat.lt_of_succ_le h))

theorem dpRun_succ_refs_getD (step : DPState → ℕ → DPState)
    (hne : ∀ s u j d, u ≠ j → (step s u).refs.getD j d = s.refs.getD j d)
    (s : DPState) (k : ℕ) (d : List ℚ) :
    (dpRun step s (k + 1)).refs.getD k d = (step s k).refs.getD k d := by
  show (dpRun step (step s k) k).refs.getD k d = _
  exact dpRun_refs_getD_ge step hne k (step s k) k d (le_refl k)

theorem dpStep_refs_getD_mid (lbfgsT : List ℚ → List ℚ) (lbfgsC : List ℚ → List ℚ → List ℚ)
    (lo hi : ℚ) (H : ℕ) (initW : List ℚ) (s : DPState) (t : ℕ)
    (hne1 : t ≠ H - 1) (ht0 : t ≠ 0) (hlen : t < s.refs.length) :
    (dpStep lbfgsT lbfgsC lo hi H initW s t).refs.getD t [] = s.arr.getD (t - 1) [] := by
  simp only [dpStep, if_neg hne1, if_neg ht0]
  exact getD_set_self _ _ _ _ hlen

theorem dpStep_refs_getD_zero (lbfgsT : List ℚ → List ℚ) (lbfgsC : List ℚ → List ℚ → List ℚ)
    (lo hi : ℚ) (H : ℕ) (initW : List ℚ) (s : DPState)
    (hlen : 0 < s.refs.length) :
    (dpStep lbfgsT lbfgsC lo hi H initW s 0).refs.getD 0 [] = initW := by
  by_cases h0 : (0 : ℕ) = H - 1
  · simp only [dpStep, if_pos h0]
    exact getD_set_self _ _ _ _ hlen
  · simp only [dpStep, if_neg h0, if_pos rfl]
    exact getD_set_self _ _ _ _ hlen

theorem dpRun_intermediate_ref (lbfgsT : List ℚ → List ℚ) (lbfgsC : List ℚ → List ℚ → List ℚ)
    (lo hi : ℚ) (H N : ℕ) (initW : List ℚ) (t : ℕ) (ht0 : 0 < t) (htH : t + 1 < H) :
    ∀ (m : ℕ) (s : DPState), s.arr.getD (t - 1) [] = List.replicate N 0 →
      t < s.refs.length →
      (dpRun (dpStep lbfgsT lbfgsC lo hi H initW) s (t + 1 + m)).refs.getD t []
        = List.replicate N 0
  | 0, s, harr, hlen => by
      rw [dpRun_succ_refs_getD _ (dpStep_refs_getD_ne lbfgsT lbfgsC lo hi H initW) s t []]
      rw [dpStep_refs_getD_mid lbfgsT lbfgsC lo hi H initW s t
        (Nat.ne_of_lt (Nat.lt_sub_of_add_lt htH)) (Nat.pos_iff_ne_zero.mp ht0) hlen]
      exact harr
  | m + 1, s, harr, hlen => by
      show (dpRun (dpStep lbfgsT lbfgsC lo hi H initW)
        (dpStep lbfgsT lbfgsC lo hi H initW s (t + 1 + m)) (t + 1 + m)).refs.getD t []
          = List.replicate N 0
      have hu : t + 1 + m ≠ t - 1 := by omega
      exact dpRun_intermediate_ref lbfgsT lbfgsC lo hi H N initW t ht0 htH m _
        (by rw [dpStep_arr_getD_ne lbfgsT lbfgsC lo hi H initW s (t + 1 + m) (t - 1) [] hu]
            exact harr)
        (by rw [dpStep_refs_length]; exact hlen)

theorem dpRun_refs_zero (lbfgsT : List ℚ → List ℚ) (lbfgsC : List ℚ → List ℚ → List ℚ)
    (lo hi : ℚ) (H : ℕ) (initW : List ℚ) :
    ∀ (k : ℕ) (s : DPState), 0 < k → 0 < s.refs.length →
      (dpRun (dpStep lbfgsT lbfgsC lo hi H initW) s k).refs.getD 0 [] = initW
  | 0, _, hk, _ => absurd hk (by omega)
  | k + 1, s, _, hlen => by
      cases k with
      | zero =>
          show (dpStep lbfgsT lbfgsC lo hi H initW s 0).refs.getD 0 [] = initW
          exact dpStep_refs_getD_zero lbfgsT lbfgsC lo hi H initW s hlen
      | succ k2 =>
          show (dpRun (dpStep lbfgsT lbfgsC lo hi H initW)
            (dpStep lbfgsT lbfgsC lo hi H initW s (k2 + 1)) (k2 + 1)).refs.getD 0 [] = initW
          exact dpRun_refs_zero lbfgsT lbfgsC lo hi H initW (k2 + 1) _ (Nat.succ_pos k2)
            (by rw [dpStep_refs_length]; exact hlen)

/-- C2 (amended): in `optimize_dynamic_program` the reference weights
for period t's transaction-cost term are read from `optimal_weights[t-1]`
BEFORE period t-1 has been solved (the loop runs backward), so for every
intermediate period 0 < t < H-1 the reference is the zero vector that
the buffer was initialized with, not the eventually-computed weights of
period t-1; for t = 0 the reference is `initial_weights`, and the
terminal period t = H-1 solves against `initial_weights`. -/
theorem dp_transaction_cost_references (lbfgsT : List ℚ → List ℚ)
    (lbfgsC : List ℚ → List ℚ → List ℚ) (lo hi : ℚ) (H N : ℕ) (initW : List ℚ)
    (t : ℕ) (ht0 : 0 < t) (htH : t + 1 < H) :
    (optimizeDynamicProgram lbfgsT lbfgsC lo hi H N initW).refs.getD t []
        = List.replicate N 0
    ∧ (optimizeDynamicProgram lbfgsT lbfgsC lo hi H N initW).refs.getD 0 [] = initW
    ∧ (optimizeDynamicProgram lbfgsT lbfgsC lo hi H N initW).refs.getD (H - 1) [] = initW := by
  refine ⟨?_, ?_, ?_⟩
  · have hH : t + 1 + (H - (t + 1)) = H := Nat.add_sub_cancel' (le_of_lt htH)
    have := dpRun_intermediate_ref lbfgsT lbfgsC lo hi H N initW t ht0 htH (H - (t + 1))
      ⟨List.replicate H (List.replicate N 0), List.replicate H (List.replicate N 0)⟩
      (getD_replicate H (t - 1) (List.replicate N 0) [] (by omega))
      (by simpa using (by omega : t < H))
    rw [hH] at this
    exact this
  · exact dpRun_refs_zero lbfgsT lbfgsC lo hi H initW H _ (by omega)
      (by simpa using (by omega : 0 < H))
  · obtain ⟨H1, rfl⟩ : ∃ H1, H = H1 + 1 := ⟨H - 1, by omega⟩
    show (dpRun (dpStep lbfgsT lbfgsC lo hi (H1 + 1) initW) _ (H1 + 1)).refs.getD H1 [] = initW
    rw [dpRun_succ_refs_getD _ (dpStep_refs_getD_ne lbfgsT lbfgsC lo hi (H1 + 1) initW) _ H1]
    simp only [dpStep, Nat.add_sub_cancel, if_pos rfl]
    exact getD_set_self _ _ _ _ (by simpa using (by omega : H1 < H1 + 1))

/-- C2 counterexample: with H = 3, N = 2, initial weights [1/2, 1/2]
and a descent loop that returns its starting point, the recorded
reference for period 1 is the zero vector, while the final optimal
weights of period 0 are [1/2, 1/2]: the reference used at period 1 is
not the already-computed weights of period 0. -/
theorem dp_reference_not_previous_period_weights :
    (optimizeDynamicProgram (fun r => r) (fun r _ => r) 0 1 3 2 [1/2, 1/2]).refs.getD 1 []
      ≠ (optimizeDynamicProgram (fun r => r) (fun r _ => r) 0 1 3 2 [1/2, 1/2]).arr.getD 0 [] := by
  norm_num [optimizeDynamicProgram, dpRun, dpStep, solveSinglePeriod, solveWithContinuation,
    project, clampQ, List.replicate, List.getD, max_def, min_def]

/-- C2 witness: the amended statement at H = 3, t = 1. -/
theorem dp_transaction_cost_references_witness :
    ((0 : ℕ) < 1 ∧ 1 + 1 < 3)
    ∧ ((optimizeDynamicProgram (fun r => r) (fun r _ => r) 0 1 3 2 [1/2, 1/2]).refs.getD 1 []
        = List.replicate 2 0
      ∧ (optimizeDynamicProgram (fun r => r) (fun r _ => r) 0 1 3 2 [1/2, 1/2]).refs.getD 0 []
        = [1/2, 1/2]
      ∧ (optimizeDynamicProgram (fun r => r) (fun r _ => r) 0 1 3 2 [1/2, 1/2]).refs.getD (3 - 1) []
        = [1/2, 1/2]) :=
  ⟨⟨by norm_num, by norm_num⟩,
    dp_transaction_cost_references (fun r => r) (fun r _ => r) 0 1 3 2 [1/2, 1/2] 1
      (by norm_num) (by norm_num)⟩

/-! ## C4: moment estimation on short windows -/

/-- C4 (amended): for a return window with fewer than 2 rows the moment
estimation does not raise anything — `fin.py` contains no
`InsufficientDataError` and `_optimize_weights` has no raise path — and
the optimizer proceeds to return a weight vector (the covariance is
computed with a division by `T - 1 = 0`). -/
theorem short_window_moments_do_not_raise
    (descent : String → Moments → ℚ × ℚ → List ℚ → List ℚ)
    (window : List (List ℚ)) (method : String) (lo hi : ℚ)
    (h : window.length < 2) :
    ∃ w, optimizeWeightsE descent window method lo hi = Except.ok w :=
  ⟨optimizeWeights descent window method lo hi, rfl⟩

/-- C4 counterexample: on the single-row window [[0.1, 0.2]] (T = 1 < 2)
`_optimize_weights` returns the projected uniform weights instead of
failing with `InsufficientDataError`. -/
theorem short_window_returns_weights :
    (([[(1:ℚ)/10, 2/10]] : List (List ℚ)).length < 2)
    ∧ optimizeWeightsE (fun _ _ _ w => w) [[1/10, 2/10]] "minimum_variance" 0 1
        = Except.ok [1/2, 1/2]
    ∧ (Except.ok [1/2, 1/2] : Except FinError (List ℚ))
        ≠ Except.error FinError.insufficientData := by
  refine ⟨by norm_num, ?_, fun h => Except.noConfusion h⟩
  norm_num [optimizeWeightsE, optimizeWeights, optimizeWeightsRaw, project, clampQ,
    estimateMoments, List.replicate, max_def, min_def]

/-- C4 witness: the amended statement at the window [[0.1, 0.2]]. -/
theorem short_window_moments_do_not_raise_witness :
    (([[(1:ℚ)/10, 2/10]] : List (List ℚ)).length < 2)
    ∧ ∃ w, optimizeWeightsE (fun _ _ _ w => w) [[1/10, 2/10]] "minimum_variance" 0 1
        = Except.ok w :=
  ⟨by norm_num, short_window_moments_do_not_raise (fun _ _ _ w => w) [[1/10, 2/10]]
    "minimum_variance" 0 1 (by norm_num)⟩

/-! ## C5: infeasible bounds -/

/-- C5 (amended): no `InfeasibleConstraintError` exists in `fin.py` and
no feasibility validation of the bounds is performed anywhere: even
when `N·lo > 1` or `N·hi < 1` makes the simplex empty,
`optimize_minimum_variance_torch` runs the descent loop and returns the
projected weight vector. -/
theorem infeasible_bounds_do_not_raise
    (descentMV : List (List ℚ) → ℚ × ℚ → List ℚ → List ℚ)
    (returns : List (List ℚ)) (lo hi : ℚ)
    (h : 1 < (((returns.headD []).length : ℚ)) * lo
      ∨ (((returns.headD []).length : ℚ)) * hi < 1) :
    ∃ w, optimizeMinimumVarianceTorch descentMV returns lo hi = Except.ok w :=
  ⟨project lo hi (optimizeMinimumVarianceTorchRaw descentMV returns lo hi), rfl⟩

/-- C5 counterexample: with N = 2 and bounds (0.6, 0.8) — infeasible
since `N·lo = 1.2 > 1` — the torch minimum-variance optimizer still
returns a weight vector ([1/2, 1/2] for an identity descent loop)
instead of raising `InfeasibleConstraintError` before the loop. -/
theorem infeasible_bounds_returns_weights :
    ((1:ℚ) < 2 * (6/10))
    ∧ optimizeMinimumVarianceTorch (fun _ _ w => w) [[0, 0], [0, 0]] (6/10) (8/10)
        = Except.ok [1/2, 1/2]
    ∧ (Except.ok [1/2, 1/2] : Except FinError (List ℚ))
        ≠ Except.error FinError.infeasibleConstraint := by
  refine ⟨by norm_num, ?_, fun h => Except.noConfusion h⟩
  norm_num [optimizeMinimumVarianceTorch, optimizeMinimumVarianceTorchRaw, project, clampQ,
    estimateMoments, List.replicate, max_def, min_def]

/-- C5 witness: the amended statement at N = 2, bounds (0.6, 0.8). -/
theorem infeasible_bounds_do_not_raise_witness :
    (1 < ((([[(0:ℚ), 0], [0, 0]].headD []).length : ℚ)) * (6/10)
      ∨ ((([[(0:ℚ), 0], [0, 0]].headD []).length : ℚ)) * (8/10) < 1)
    ∧ ∃ w, optimizeMinimumVarianceTorch (fun _ _ w => w) [[0, 0], [0, 0]] (6/10) (8/10)
        = Except.ok w := by
  have h : 1 < ((([[(0:ℚ), 0], [0, 0]].headD []).length : ℚ)) * (6/10)
      ∨ ((([[(0:ℚ), 0], [0, 0]].headD []).length : ℚ)) * (8/10) < 1 := by
    left; norm_num
  exact ⟨h, infeasible_bounds_do_not_raise (fun _ _ w => w) [[0, 0], [0, 0]] (6/10) (8/10) h⟩

/-! ## C9: warm-up zeros in portfolio_values force max_drawdown = -1 -/

theorem getD_replicate_zero : ∀ (n i : ℕ), (List.replicate n (0:ℚ)).getD i 0 = 0
  | 0, _ => rfl
  | _ + 1, 0 => rfl
  | n + 1, i + 1 => getD_replicate_zero n i

theorem btStep_values_length
    (descent : String → Moments → ℚ × ℚ → List ℚ → List ℚ) (method : String)
    (lo hi : ℚ) (returns : List (List ℚ)) (lookback : ℕ)
    (rebalance_freq : RebalanceFrequency) (threshold : ℚ)
    (cost_model : TransactionCostModel) (cost_rate : ℚ) (sqrtFn : ℚ → ℚ)
    (s : BTState) (t : ℕ) :
    (btStep descent method lo hi returns lookback rebalance_freq threshold cost_model
      cost_rate sqrtFn s t).values.length = s.values.length := by
  simp only [btStep]
  split
  · exact List.length_set _ _ _
  · exact List.length_set _ _ _

theorem btStep_values_getD_lt
    (descent : String → Moments → ℚ × ℚ → List ℚ → List ℚ) (method : String)
    (lo hi : ℚ) (returns : List (List ℚ)) (lookback : ℕ)
    (rebalance_freq : RebalanceFrequency) (threshold : ℚ)
    (cost_model : TransactionCostModel) (cost_rate : ℚ) (sqrtFn : ℚ → ℚ)
    (s : BTState) (t i : ℕ) (hit : i < t) :
    (btStep descent method lo hi returns lookback rebalance_freq threshold cost_model
      cost_rate sqrtFn s t).values.getD i 0 = s.values.getD i 0 := by
  simp only [btStep]
  split
  · exact getD_set_ne _ _ _ _ _ (Nat.ne_of_gt hit)
  · exact getD_set_ne _ _ _ _ _ (Nat.ne_of_gt hit)

theorem btRunAux_values_getD (step : BTState → ℕ → BTState)
    (hv : ∀ s t i, i < t → (step s t).values.getD i 0 = s.values.getD i 0) :
    ∀ (k t : ℕ) (s : BTState) (i : ℕ), i < t →
      (btRunAux step k t s).values.getD i 0 = s.values.getD i 0
  | 0, _, _, _, _ => rfl
  | k + 1, t, s, i, h => by
      unfold btRunAux
      rw [btRunAux_values_getD step hv k (t + 1) (step s t) i (Nat.lt_succ_of_lt h),
        hv s t i h]

theorem btRunAux_values_length (step : BTState → ℕ → BTState)
    (hl : ∀ s t, (step s t).values.length = s.values.length) :
    ∀ (k t : ℕ) (s : BTState), (btRunAux step k t s).values.length = s.values.length
  | 0, _, _ => rfl
  | k + 1, t, s => by
      unfold btRunAux
      rw [btRunAux_values_length step hl k (t + 1) (step s t), hl s t]

theorem neg_one_le_drawdown : ∀ (l : List ℚ) (m : ℚ), 0 < m → (∀ x ∈ l, 0 ≤ x) →
    ∀ d ∈ List.zipWith (fun v mm => (v - mm) / mm) l (runningMaxAux m l), -1 ≤ d
  | [], _, _, _ => by intro d hd; simp [runningMaxAux] at hd
  | v :: vs, m, hm, hl => by
      intro d hd
      simp only [runningMaxAux, List.zipWith_cons_cons, List.mem_cons] at hd
      rcases hd with h | h
      · subst h
        have hM : 0 < max m v := lt_of_lt_of_le hm (le_max_left m v)
        rw [le_div_iff₀ hM]
        have hv : 0 ≤ v := hl v (by simp)
        linarith
      · exact neg_one_le_drawdown vs (max m v) (lt_of_lt_of_le hm (le_max_left m v))
          (fun y hy => hl y (by simp [hy])) d h

theorem maxDrawdown_warmup (V : List ℚ) (hlen : 2 ≤ V.length)
    (h0 : 0 < V.getD 0 0) (h1 : V.getD 1 0 = 0) (hnn : ∀ x ∈ V, 0 ≤ x) :
    maxDrawdown V = -1 := by
  obtain ⟨a, V1, rfl⟩ : ∃ a V1, V = a :: V1 := by
    cases V with
    | nil => simp at hlen
    | cons a V1 => exact ⟨a, V1, rfl⟩
  obtain ⟨b, rest, rfl⟩ : ∃ b rest, V1 = b :: rest := by
    cases V1 with
    | nil => simp at hlen
    | cons b rest => exact ⟨b, rest, rfl⟩
  have ha : 0 < a := h0
  have hb : b = 0 := h1
  subst hb
  have hmax : max a 0 = a := max_eq_left (le_of_lt ha)
  unfold maxDrawdown drawdowns runningMax
  simp only [runningMaxAux, hmax, List.zipWith_cons_cons]
  have e0 : (a - a) / a = 0 := by rw [sub_self, zero_div]
  have e1 : ((0:ℚ) - a) / a = -1 := by rw [zero_sub, neg_div, div_self (ne_of_gt ha)]
  rw [e0, e1]
  show (List.foldl min 0 ((-1) :: List.zipWith (fun v mm => (v - mm) / mm) rest
    (runningMaxAux a rest))) = -1
  simp only [List.foldl_cons]
  have hmin : min (0:ℚ) (-1) = -1 := by norm_num [min_def]
  rw [hmin]
  refine le_antisymm (foldl_min_le_init _ _) (le_foldl_min _ _ _ (le_refl _) ?_)
  intro x hx
  exact neg_one_le_drawdown rest a ha
    (fun y hy => hnn y (List.mem_cons_of_mem a (List.mem_cons_of_mem 0 hy))) x hx

/-- C9: in every backtest run with `min_history ≥ 2 ≤ T`, positive
initial capital and nonnegative recorded values, the `portfolio_values`
entries at indices 1 through min_history-1 stay 0 (index 0 holds the
initial capital; the loop writes only from index min_history on), and
consequently the reported max_drawdown equals exactly -1. -/
theorem warmup_zeros_force_max_drawdown
    (descent : String → Moments → ℚ × ℚ → List ℚ → List ℚ) (method : String)
    (returns : List (List ℚ)) (lookback : ℕ) (rebalance_freq : RebalanceFrequency)
    (threshold : ℚ) (cost_model : TransactionCostModel) (cost_rate : ℚ)
    (min_history : ℕ) (lo hi initial_capital : ℚ) (sqrtFn : ℚ → ℚ)
    (h2 : 2 ≤ min_history) (hmT : min_history ≤ returns.length)
    (hcap : 0 < initial_capital)
    (hnn : ∀ x ∈ (runBacktest descent method returns lookback rebalance_freq threshold
      cost_model cost_rate min_history lo hi initial_capital sqrtFn).values, 0 ≤ x) :
    (∀ i, 1 ≤ i → i < min_history →
      (runBacktest descent method returns lookback rebalance_freq threshold cost_model
        cost_rate min_history lo hi initial_capital sqrtFn).values.getD i 0 = 0)
    ∧ maxDrawdown ((runBacktest descent method returns lookback rebalance_freq threshold
        cost_model cost_rate min_history lo hi initial_capital sqrtFn).values) = -1 := by
  have hstepv := btStep_values_getD_lt descent method lo hi returns lookback rebalance_freq
    threshold cost_model cost_rate sqrtFn
  have hstepl := btStep_values_length descent method lo hi returns lookback rebalance_freq
    threshold cost_model cost_rate sqrtFn
  constructor
  · intro i h1i him
    show (btRunAux _ (returns.length - min_history) min_history _).values.getD i 0 = 0
    rw [btRunAux_values_getD _ hstepv _ _ _ i him]
    show (((List.replicate returns.length (0:ℚ)).set 0 initial_capital).getD i 0) = 0
    rw [getD_set_ne _ 0 i _ _ (by omega)]
    exact getD_replicate_zero returns.length i
  · apply maxDrawdown_warmup
    · show 2 ≤ (btRunAux _ (returns.length - min_history) min_history _).values.length
      rw [btRunAux_values_length _ hstepl]
      show 2 ≤ ((List.replicate returns.length (0:ℚ)).set 0 initial_capital).length
      rw [List.length_set, List.length_replicate]
      omega
    · show 0 < (btRunAux _ (returns.length - min_history) min_history _).values.getD 0 0
      rw [btRunAux_values_getD _ hstepv _ _ _ 0 (by omega)]
      show 0 < (((List.replicate returns.length (0:ℚ)).set 0 initial_capital).getD 0 0)
      rw [getD_set_self _ 0 _ _ (by rw [List.length_replicate]; omega)]
      exact hcap
    · show (btRunAux _ (returns.length - min_history) min_history _).values.getD 1 0 = 0
      rw [btRunAux_values_getD _ hstepv _ _ _ 1 (by omega)]
      show (((List.replicate returns.length (0:ℚ)).set 0 initial_capital).getD 1 0) = 0
      rw [getD_set_ne _ 0 1 _ _ (by omega)]
      exact getD_replicate_zero returns.length 1
    · exact hnn

/-- C9 witness: a concrete run (T = 3, min_history = 2, capital 1000,
zero returns) whose recorded values are [1000, 0, 1000]: the warm-up
entry at index 1 is 0 and the reported max_drawdown is -1. -/
theorem warmup_zeros_force_max_drawdown_witness :
    (2 ≤ 2 ∧ 2 ≤ ([[(0:ℚ), 0], [0, 0], [0, 0]] : List (List ℚ)).length ∧ (0:ℚ) < 1000)
    ∧ (runBacktest (fun _ _ _ w => w) "mm" [[0, 0], [0, 0], [0, 0]] 2 .MONTHLY (1/20)
        .PROPORTIONAL (1/1000) 2 0 1 1000 id).values.getD 1 0 = 0
    ∧ maxDrawdown ((runBacktest (fun _ _ _ w => w) "mm" [[0, 0], [0, 0], [0, 0]] 2 .MONTHLY
        (1/20) .PROPORTIONAL (1/1000) 2 0 1 1000 id).values) = -1 := by
  have hv : (runBacktest (fun _ _ _ w => w) "mm" [[0, 0], [0, 0], [0, 0]] 2 .MONTHLY (1/20)
      .PROPORTIONAL (1/1000) 2 0 1 1000 id).values = [1000, 0, 1000] := by
    norm_num [runBacktest, btRunAux, btStep, should_rebalance, dotQ, List.replicate,
      optimizeWeights, optimizeWeightsRaw, project, clampQ, estimateMoments, max_def, min_def]
  have hnn : ∀ x ∈ (runBacktest (fun _ _ _ w => w) "mm" [[0, 0], [0, 0], [0, 0]] 2 .MONTHLY
      (1/20) .PROPORTIONAL (1/1000) 2 0 1 1000 id).values, 0 ≤ x := by
    rw [hv]
    intro x hx
    fin_cases hx <;> norm_num
  obtain ⟨hA, hB⟩ := warmup_zeros_force_max_drawdown (fun _ _ _ w => w) "mm"
    [[0, 0], [0, 0], [0, 0]] 2 .MONTHLY (1/20) .PROPORTIONAL (1/1000) 2 0 1 1000 id
    (by norm_num) (by norm_num) (by norm_num) hnn
  exact ⟨⟨by norm_num, by norm_num, by norm_num⟩, hA 1 (by norm_num) (by norm_num), hB⟩
